import Mathlib

/-!
Shallow embedding of the scheduler-game engine (`src/simulator.py`):
the task data model, the random task generator `generate_tasks`, and the
discrete-event schedule verifier `simulate_cpu` / `accept_task`,
together with theorems checking the specification's claims.

Python's `random` module is modelled by an explicit stream of natural
numbers (`Rng`); every random primitive consumes one draw.  Python
`set`s are modelled as duplicate-free lists (insertion deduplicates,
membership is structural equality); Python object identity for `Task`
coincides with structural equality because generated ids are unique.
Python floats (`rand.random()` thresholds and resource-ratio division)
are modelled exactly: thresholds by integer draws modulo 100, ratios by
exact numerator/denominator pairs compared by cross-multiplication.
-/

deriving instance DecidableEq for Except

namespace SchedulerGame

/-- Random source: a stream of naturals and a cursor.  Each Python
`random` call consumes one draw. -/
structure Rng where
  stream : Nat → Nat
  idx : Nat

def Rng.next (g : Rng) : Nat × Rng :=
  (g.stream g.idx, ⟨g.stream, g.idx + 1⟩)

/-- `rand.randint(a, b)`: uniform integer in `[a, b]`, both ends included. -/
def randint (a b : Nat) (g : Rng) : Nat × Rng :=
  (a + g.next.1 % (b - a + 1), g.next.2)

/-- `rand.randrange(a, b)`: uniform integer in `[a, b)`. -/
def randrange (a b : Nat) (g : Rng) : Nat × Rng :=
  (a + g.next.1 % (b - a), g.next.2)

/-- `random._randbelow(n)`: uniform integer in `[0, n)`. -/
def randbelow (n : Nat) (g : Rng) : Nat × Rng :=
  (g.next.1 % n, g.next.2)

/-- `rand.random() < p/100`: a Bernoulli draw, modelled as one integer
draw compared modulo 100 (`0.25` becomes `< 25`, etc.). -/
def randChance (p : Nat) (g : Rng) : Bool × Rng :=
  (g.next.1 % 100 < p, g.next.2)

/-- `class ResourceType(Enum)`: the three execution channels. -/
inductive ResourceType where
  | Red
  | Green
  | Blue
deriving DecidableEq

/-- `resource_ids`: the channel keys, in declaration order. -/
def resource_ids : List ResourceType :=
  [ResourceType.Red, ResourceType.Green, ResourceType.Blue]

/-- `class Register(Enum)`: the six machine registers. -/
inductive Register where
  | A
  | B
  | C
  | D
  | E
  | F
deriving DecidableEq

/-- `class Task`: id, resource type, duration, dependency set, register
set, and the mutable `scheduled` start tick (sentinel `-1`).
Dependencies nest `Task` values; this is faithful because the generator
only ever points a dependency at an already-finished earlier task. -/
inductive Task where
  | mk (id : String) (type : ResourceType) (duration : Int)
      (depends : List Task) (registers : List Register)
      (scheduled : Int) : Task

def Task.id : Task → String
  | .mk i _ _ _ _ _ => i

def Task.type : Task → ResourceType
  | .mk _ t _ _ _ _ => t

def Task.duration : Task → Int
  | .mk _ _ d _ _ _ => d

def Task.depends : Task → List Task
  | .mk _ _ _ d _ _ => d

def Task.registers : Task → List Register
  | .mk _ _ _ _ r _ => r

def Task.scheduled : Task → Int
  | .mk _ _ _ _ _ s => s

instance : Inhabited Task :=
  ⟨.mk "" .Red 1 [] [] (-1)⟩

mutual

def Task.beq : Task → Task → Bool
  | .mk i1 t1 d1 dep1 r1 s1, .mk i2 t2 d2 dep2 r2 s2 =>
    i1 == i2 && t1 == t2 && d1 == d2 && Task.beqList dep1 dep2 &&
      r1 == r2 && s1 == s2

def Task.beqList : List Task → List Task → Bool
  | [], [] => true
  | x :: xs, y :: ys => Task.beq x y && Task.beqList xs ys
  | _, _ => false

end

mutual

theorem Task.beq_refl : (t : Task) → Task.beq t t = true
  | .mk i ty d dep r s => by
    simp [Task.beq, Task.beqList_refl dep]

theorem Task.beqList_refl : (l : List Task) → Task.beqList l l = true
  | [] => by simp [Task.beqList]
  | x :: xs => by
    simp [Task.beqList, Task.beq_refl x, Task.beqList_refl xs]

end

mutual

theorem Task.eq_of_beq : {t u : Task} → Task.beq t u = true → t = u
  | .mk i1 t1 d1 dep1 r1 s1, .mk i2 t2 d2 dep2 r2 s2, h => by
    simp only [Task.beq, Bool.and_eq_true, beq_iff_eq] at h
    obtain ⟨⟨⟨⟨⟨h1, h2⟩, h3⟩, h4⟩, h5⟩, h6⟩ := h
    subst h1; subst h2; subst h3; subst h5; subst h6
    rw [Task.listEq_of_beqList h4]

theorem Task.listEq_of_beqList : {l m : List Task} →
    Task.beqList l m = true → l = m
  | [], [], _ => rfl
  | x :: xs, y :: ys, h => by
    simp only [Task.beqList, Bool.and_eq_true] at h
    rw [Task.eq_of_beq h.1, Task.listEq_of_beqList h.2]

end

instance : DecidableEq Task := fun t u =>
  if h : Task.beq t u = true then .isTrue (Task.eq_of_beq h)
  else .isFalse (fun he => h (he ▸ Task.beq_refl t))

mutual

/-- `task_depth`: 1 for a dependency-free task, otherwise 1 plus the
maximal depth over its dependencies. -/
def task_depth : Task → Nat
  | .mk _ _ _ [] _ _ => 1
  | .mk _ _ _ (d :: ds) _ _ => 1 + task_depthList (d :: ds)

/-- Maximum of `task_depth` over a list (the `max(...)` generator in
`task_depth`). -/
def task_depthList : List Task → Nat
  | [] => 0
  | d :: ds => max (task_depth d) (task_depthList ds)

end

/-! ## Task generator (`generate_tasks`) -/

/-- Field update `task.type = resource`. -/
def setType (t : Task) (r : ResourceType) : Task :=
  match t with
  | .mk i _ d dep reg s => .mk i r d dep reg s

/-- Field update `task.duration = ...`. -/
def setDuration (t : Task) (d : Int) : Task :=
  match t with
  | .mk i ty _ dep reg s => .mk i ty d dep reg s

/-- Field update `task.registers = register_set`. -/
def setRegisters (t : Task) (reg : List Register) : Task :=
  match t with
  | .mk i ty d dep _ s => .mk i ty d dep reg s

/-- `task.depends.add(depend)` (set insertion). -/
def addDep (t : Task) (d : Task) : Task :=
  match t with
  | .mk i ty du dep reg s => .mk i ty du (dep.insert d) reg s

/-- The blank tasks `Task(str(i), Red, 1, set(), set())` for
`i in range(1, length + 1)`. -/
def blankTasks (length : Nat) : List Task :=
  (List.range' 1 length).map (fun i => Task.mk (Nat.repr i) .Red 1 [] [] (-1))

/-- `rand.shuffle`, as repeated uniform extraction: pick a random
element, emit it, recurse on the remainder.  The fuel starts at the list
length and bounds the recursion. -/
def shuffleGo : Nat → List Task → Rng → List Task × Rng
  | 0, l, g => (l, g)
  | fuel + 1, l, g =>
    if l.isEmpty then (l, g)
    else
      let jg := randbelow l.length g
      let x := l.getD jg.1 default
      let rec_ := shuffleGo fuel (l.erase x) jg.2
      (x :: rec_.1, rec_.2)

def shuffle (l : List Task) (g : Rng) : List Task × Rng :=
  shuffleGo l.length l g

/-- An exact fraction, numerator over denominator: the idealization of
the Python float quotients.  Every denominator built below is positive,
so comparison by cross-multiplication agrees with the rational order. -/
abbrev Frac : Type := Int × Int

/-- `x - y` on fractions. -/
def fracSub (x y : Frac) : Frac :=
  (x.1 * y.2 - y.1 * x.2, x.2 * y.2)

/-- `x < y` on fractions with positive denominators. -/
def fracLt (x y : Frac) : Bool :=
  x.1 * y.2 < y.1 * x.2

/-- First index attaining the maximum (Python `max(enumerate(...),
key=lambda t: t[1])[0]`, which keeps the earliest of equal keys).
`i` is the index of the head of the remaining list, `bi`/`bv` the best
index and value so far. -/
def argmaxFrom (i bi : Nat) (bv : Frac) : List Frac → Nat
  | [] => bi
  | v :: vs => if fracLt bv v then argmaxFrom (i + 1) i v vs else argmaxFrom (i + 1) bi bv vs

def argmaxF : List Frac → Nat
  | [] => 0
  | v :: vs => argmaxFrom 1 0 v vs

/-- `resource_tasks[i] += 1`. -/
def incrAt (i : Nat) (l : List Nat) : List Nat :=
  l.set i (l.getD i 0 + 1)

/-- The greedy resource-count loop: `length` rounds, each adding one
task to the resource with the largest remaining shortfall
`target - n / length`.  Python's float division is modelled by exact
fractions. -/
def countResources (length : Nat) (ratio : List Frac) : Nat → List Nat → List Nat
  | 0, counts => counts
  | k + 1, counts =>
    let distance :=
      List.zipWith (fun n target => fracSub target ((n : Int), (length : Int))) counts ratio
    countResources length ratio k (incrAt (argmaxF distance) counts)

/-- The flattened resource sequence
`(resc for (num, resc) in zip(resource_tasks, list(ResourceType)) for _ in range(num))`. -/
def typesList (counts : List Nat) : List ResourceType :=
  (List.zipWith (fun num resc => List.replicate num resc) counts resource_ids).flatten

/-- `for resource, task in zip(types, lists): task.type = resource`:
in-place field update, so tasks beyond the zipped prefix are kept
unchanged. -/
def assignTypes : List ResourceType → List Task → List Task
  | r :: rs, t :: ts => setType t r :: assignTypes rs ts
  | _, ts => ts

/-- `for task in lists: task.duration = rand.randrange(1, 5)`. -/
def assignDurations : List Task → Rng → List Task × Rng
  | [], g => ([], g)
  | t :: ts, g =>
    let dg := randrange 1 5 g
    let rec_ := assignDurations ts dg.2
    (setDuration t (dg.1 : Int) :: rec_.1, rec_.2)

/-- `list(Register)` in declaration order. -/
def registerValues : List Register :=
  [.A, .B, .C, .D, .E, .F]

/-- `rand.choice(list(Register))`. -/
def chooseRegister (g : Rng) : Register × Rng :=
  let jg := randbelow registerValues.length g
  (registerValues.getD jg.1 .A, jg.2)

/-- The register loop: one register always, a second (possibly equal,
absorbed by set semantics) with probability 25%. -/
def assignRegisters : List Task → Rng → List Task × Rng
  | [], g => ([], g)
  | t :: ts, g =>
    let rg := chooseRegister g
    let rs : List Register := [rg.1]
    let cg := randChance 25 rg.2
    let step :=
      if cg.1 then
        let r2g := chooseRegister cg.2
        (rs.insert r2g.1, r2g.2)
      else (rs, cg.2)
    let rec_ := assignRegisters ts step.2
    (setRegisters t step.1 :: rec_.1, rec_.2)

/-- `rand.choice(lists[:i])` (callers guarantee a non-empty slice). -/
def chooseTask (l : List Task) (g : Rng) : Task × Rng :=
  let jg := randbelow l.length g
  (l.getD jg.1 default, jg.2)

/-- The dependency loop body for indices `i = 1 .. length - 1` (the
fuel counts the remaining indices): with probability 33% skip; else
pick an earlier task and depend on it if its chain depth is below 4;
then with probability 66% skip the second pick, else repeat. -/
def addDepsGo : Nat → Nat → List Task → Rng → List Task × Rng
  | 0, _, lists, g => (lists, g)
  | fuel + 1, i, lists, g =>
    let task := lists.getD i default
    let s1 := randChance 33 g
    if s1.1 then addDepsGo fuel (i + 1) lists s1.2
    else
      let dg := chooseTask (lists.take i) s1.2
      let lists1 := if task_depth dg.1 < 4 then lists.set i (addDep task dg.1) else lists
      let s2 := randChance 66 dg.2
      if s2.1 then addDepsGo fuel (i + 1) lists1 s2.2
      else
        let task2 := lists1.getD i default
        let d2g := chooseTask (lists1.take i) s2.2
        let lists2 :=
          if task_depth d2g.1 < 4 then lists1.set i (addDep task2 d2g.1) else lists1
        addDepsGo fuel (i + 1) lists2 d2g.2

def addDeps (lists : List Task) (g : Rng) : List Task × Rng :=
  addDepsGo (lists.length - 1) 1 lists g

/-- `generate_tasks(length)`: blank tasks, shuffle, resource-balanced
type assignment, shuffle, durations, registers, dependencies, final
shuffle. -/
def generate_tasks (length : Nat) (g : Rng) : List Task × Rng :=
  let p1 := shuffle (blankTasks length) g
  let w1 := randint 4 16 p1.2
  let w2 := randint 4 16 w1.2
  let w3 := randint 4 16 w2.2
  let sum_weights : Int := ((w1.1 + w2.1 + w3.1 : Nat) : Int)
  let resource_ratio : List Frac :=
    [((w1.1 : Int), sum_weights), ((w2.1 : Int), sum_weights), ((w3.1 : Int), sum_weights)]
  let resource_tasks := countResources length resource_ratio length [0, 0, 0]
  let p2 := shuffle (assignTypes (typesList resource_tasks) p1.1) w3.2
  let p3 := assignDurations p2.1 p2.2
  let p4 := assignRegisters p3.1 p3.2
  let p5 := addDeps p4.1 p4.2
  shuffle p5.1 p5.2

/-! ## Schedule verifier (`accept_task`, `simulate_cpu`) -/

/-- A per-channel table (the Python `dict`s keyed by `resource_ids`;
both `solution` and `running_tasks` always hold exactly these three
keys). -/
structure ChanMap (α : Type) where
  red : α
  green : α
  blue : α
deriving DecidableEq

def ChanMap.get {α : Type} (m : ChanMap α) : ResourceType → α
  | .Red => m.red
  | .Green => m.green
  | .Blue => m.blue

def ChanMap.set {α : Type} (m : ChanMap α) : ResourceType → α → ChanMap α
  | .Red, v => ⟨v, m.green, m.blue⟩
  | .Green, v => ⟨m.red, v, m.blue⟩
  | .Blue, v => ⟨m.red, m.green, v⟩

/-- The structured content of the `BadScheduleException` messages, one
constructor per message template of `accept_task` / `simulate_cpu`. -/
inductive Rejection where
  | outOfOrder (id : String) (scheduledAt : Int) (time : Nat)
  | collision (id : String) (time : Nat) (runningId : String) (runningUntil : Int)
  | registerConflict (id : String) (otherId : String) (shared : List Register) (time : Nat)
  | dependencyUnmet (dependId : String) (time : Nat)
  | unscheduledTasks (ids : List String)
deriving DecidableEq

/-- Verifier outcome errors: `badSchedule` is the `BadScheduleException`
family; `engineFailure` is the bare `Exception("The simulator has
entered an inifinite loop")` raised at the tick ceiling. -/
inductive SimError where
  | badSchedule (r : Rejection)
  | engineFailure
deriving DecidableEq

/-- `task.registers & running.registers` (set intersection, kept in the
left operand's order). -/
def regInter (a b : List Register) : List Register :=
  a.filter (fun r => b.contains r)

/-- `running_tasks.values()` with the `None` entries dropped, in the
dict's insertion order Red, Green, Blue. -/
def runningValues (rt : ChanMap (Option (Int × Task))) : List (Int × Task) :=
  [rt.red, rt.green, rt.blue].filterMap id

/-- The generator expression locating the first running task (on any
channel) whose registers intersect `task.registers`. -/
def findRegConflict (task : Task) (rt : ChanMap (Option (Int × Task))) : Option Task :=
  ((runningValues rt).find? (fun rv => !(regInter task.registers rv.2.registers).isEmpty)).map
    Prod.snd

/-- `accept_task`: try to admit the head of `channel`'s queue at `time`.
Returns the updated `(solution, running_tasks)` or the first raised
rejection. -/
def accept_task (channel : ResourceType) (solution : ChanMap (List Task)) (time : Nat)
    (running_tasks : ChanMap (Option (Int × Task))) (completed : List Task) :
    Except Rejection (ChanMap (List Task) × ChanMap (Option (Int × Task))) :=
  match solution.get channel with
  | [] => .ok (solution, running_tasks)
  | task :: rest =>
    if task.scheduled < (time : Int) then
      .error (.outOfOrder task.id task.scheduled time)
    else if ¬task.scheduled = (time : Int) then
      .ok (solution, running_tasks)
    else
      match running_tasks.get channel with
      | some running =>
        .error (.collision task.id time running.2.id running.1)
      | none =>
        match findRegConflict task running_tasks with
        | some conflict =>
          .error (.registerConflict task.id conflict.id
            (regInter task.registers conflict.registers) time)
        | none =>
          match task.depends.find? (fun d => !completed.contains d) with
          | some bad => .error (.dependencyUnmet bad.id time)
          | none =>
            .ok (solution.set channel rest,
              running_tasks.set channel (some ((time : Int) + task.duration, task)))

/-- One entry of the completion sweep: free a running slot whose
completion tick has been reached and add its task to `completed`. -/
def clearChannel (time : Nat) (v : Option (Int × Task)) (completed : List Task) :
    Option (Int × Task) × List Task :=
  match v with
  | some rv => if rv.1 ≤ (time : Int) then (none, completed.insert rv.2) else (v, completed)
  | none => (none, completed)

/-- The "clear completed tasks" sweep of the loop body, over the three
channels in dict order. -/
def clearCompleted (time : Nat) (running : ChanMap (Option (Int × Task)))
    (completed : List Task) : ChanMap (Option (Int × Task)) × List Task :=
  let pr := clearChannel time running.red completed
  let pg := clearChannel time running.green pr.2
  let pb := clearChannel time running.blue pg.2
  (⟨pr.1, pg.1, pb.1⟩, pb.2)

/-- The verifier's mutable state: the (copied) per-channel queues, the
per-channel running slots, and the completed set. -/
structure SimState where
  solution : ChanMap (List Task)
  running : ChanMap (Option (Int × Task))
  completed : List Task
deriving DecidableEq

/-- `any(len(l) > 0 for l in solution.values())`. -/
def anyQueue (sol : ChanMap (List Task)) : Bool :=
  !sol.red.isEmpty || !sol.green.isEmpty || !sol.blue.isEmpty

/-- One iteration of the `while` loop body: clear completed tasks, then
run `accept_task` for each channel in `resource_ids` order. -/
def tickBody (time : Nat) (st : SimState) : Except Rejection SimState :=
  let rc := clearCompleted time st.running st.completed
  match accept_task .Red st.solution time rc.1 rc.2 with
  | .error e => .error e
  | .ok (sol1, run1) =>
    match accept_task .Green sol1 time run1 rc.2 with
    | .error e => .error e
    | .ok (sol2, run2) =>
      match accept_task .Blue sol2 time run2 rc.2 with
      | .error e => .error e
      | .ok (sol3, run3) => .ok ⟨sol3, run3, rc.2⟩

/-- The `while any(...) and time < 30` loop, structurally recursive on a
tick budget.  `simulate_cpu` enters with `fuel = 30`, `time = 0`; every
recursive call keeps `30 ≤ fuel + time`, so when the budget runs out the
guard `time < 30` has necessarily failed and the `fuel = 0` case
coincides with the loop's exit checks (the `.ok ()` for `time < 30`
there is unreachable). -/
def simLoopGo : Nat → Nat → SimState → Except SimError Unit
  | fuel + 1, time, st =>
    if anyQueue st.solution = true ∧ time < 30 then
      match tickBody time st with
      | .error r => .error (.badSchedule r)
      | .ok st' => simLoopGo fuel (time + 1) st'
    else if 30 ≤ time then .error .engineFailure
    else .ok ()
  | 0, time, _ =>
    if 30 ≤ time then .error .engineFailure
    else .ok ()

/-- The `solution = {name: [x for x in l] ...}` copy at the top of
`simulate_cpu`: fresh queue lists with the same contents. -/
def copyQueues (solution : ChanMap (List Task)) : ChanMap (List Task) :=
  ⟨solution.red.map id, solution.green.map id, solution.blue.map id⟩

/-- The verifier's initial state for a given (already copied) solution. -/
def initState (solution : ChanMap (List Task)) : SimState :=
  ⟨solution, ⟨none, none, none⟩, []⟩

/-- `simulate_cpu`: reject up front if any task of `tasklist` is still
unscheduled, then run the tick loop on a copy of the queues. -/
def simulate_cpu (solution : ChanMap (List Task)) (tasklist : List Task) :
    Except SimError Unit :=
  let sol := copyQueues solution
  let unscheduled := (tasklist.filter (fun t => t.scheduled == -1)).map Task.id
  if !unscheduled.isEmpty then
    .error (.badSchedule (.unscheduledTasks unscheduled))
  else
    simLoopGo 30 0 (initState sol)

/-- Pure iteration of the loop body: run `k` consecutive tick bodies
starting at `time`, ignoring the `while` guard (used to characterize
when the loop hits the ceiling). -/
def runSteps : Nat → Nat → SimState → Except Rejection SimState
  | 0, _, st => .ok st
  | k + 1, time, st =>
    match tickBody time st with
    | .error e => .error e
    | .ok st' => runSteps k (time + 1) st'

/-! ## Notions used by the claims -/

/-- Transitive reachability along dependency edges: `DependsOn t u`
holds when `u` can be reached from `t` through one or more `depends`
links.  Acyclicity of the dependency relation is `¬ DependsOn t t`. -/
inductive DependsOn : Task → Task → Prop where
  | step {t d : Task} : d ∈ t.depends → DependsOn t d
  | tail {t d u : Task} : d ∈ t.depends → DependsOn d u → DependsOn t u

/-- Every dependency of the task has chain depth at most 3 (so the task
itself has depth at most 4). -/
def DepsBounded (t : Task) : Prop :=
  ∀ d ∈ t.depends, task_depth d ≤ 3

/-- A back-to-back queue: the first task starts at `s` and each
subsequent task starts exactly when its predecessor's duration ends
(the "cumulative sum of prior durations" placement). -/
def BackToBack (s : Int) : List Task → Prop
  | [] => True
  | t :: rest => t.scheduled = s ∧ BackToBack (s + t.duration) rest

/-- Every task's dependencies lie among `avail` or among the tasks
before it in the queue (a topological placement). -/
def DepsOk (avail : List Task) : List Task → Prop
  | [] => True
  | t :: rest => (∀ d ∈ t.depends, d ∈ avail) ∧ DepsOk (t :: avail) rest

/-- Total duration of a queue. -/
def durTotal (l : List Task) : Int :=
  (l.map Task.duration).sum

/-- A deterministic random source used to instantiate witnesses. -/
def zeroRng : Rng :=
  ⟨fun _ => 0, 0⟩

/-! ### Concrete scenario inputs -/

/-- Scenario A/B task 1: RED, duration 2, registers `{A}`, start 0. -/
def taskA1 : Task := .mk "1" .Red 2 [] [.A] 0

/-- Scenario A task 2: RED, duration 1, depends on task 1, start 2. -/
def taskA2 : Task := .mk "2" .Red 1 [taskA1] [.A] 2

def scenA_sol : ChanMap (List Task) := ⟨[taskA1, taskA2], [], []⟩

def scenA_tasks : List Task := [taskA1, taskA2]

/-- Scenario B task 2: like `taskA2` but start 1, before task 1's
completion tick 2. -/
def taskB2 : Task := .mk "2" .Red 1 [taskA1] [.A] 1

def scenB_sol : ChanMap (List Task) := ⟨[taskA1, taskB2], [], []⟩

def scenB_tasks : List Task := [taskA1, taskB2]

/-- Scenario C task 1: RED, registers `{A}`, start 0, duration 3. -/
def taskC1 : Task := .mk "1" .Red 3 [] [.A] 0

/-- Scenario C task 2: GREEN, registers `{A}`, start 1, no dependency. -/
def taskC2 : Task := .mk "2" .Green 1 [] [.A] 1

def scenC_sol : ChanMap (List Task) := ⟨[taskC1], [taskC2], []⟩

def scenC_tasks : List Task := [taskC1, taskC2]

/-- A single task whose admission tick 29 is the last tick the loop
body ever runs: it drains the queue, yet the clock still reaches 30. -/
def taskCeil : Task := .mk "1" .Red 1 [] [.A] 29

def scenCeil_sol : ChanMap (List Task) := ⟨[taskCeil], [], []⟩

/-- The same task scheduled one tick earlier, at 28. -/
def taskCeil28 : Task := .mk "1" .Red 1 [] [.A] 28

def scenCeil28_sol : ChanMap (List Task) := ⟨[taskCeil28], [], []⟩

/-- Two register-sharing tasks on different channels, each first on its
channel with the cumulative-sum start tick 0 and no dependencies. -/
def taskR1 : Task := .mk "1" .Red 1 [] [.A] 0

def taskR2 : Task := .mk "2" .Green 1 [] [.A] 0

def scenR_sol : ChanMap (List Task) := ⟨[taskR1], [taskR2], []⟩

def scenR_tasks : List Task := [taskR1, taskR2]

/-- A task with a start tick that is present in the task list but in no
channel queue. -/
def taskGhost : Task := .mk "ghost" .Green 1 [] [.B] 5

def scenGhost_sol : ChanMap (List Task) := ⟨[taskR1], [], []⟩

def scenGhost_tasks : List Task := [taskR1, taskGhost]

/-- An unscheduled task (still carrying the sentinel `-1`). -/
def taskUnsched : Task := .mk "u" .Blue 1 [] [.C] (-1)

/-- Calling the verifier twice in a row on the same inputs. -/
def runTwice (solution : ChanMap (List Task)) (tasklist : List Task) :
    Except SimError Unit × Except SimError Unit :=
  (simulate_cpu solution tasklist, simulate_cpu solution tasklist)

/-- Big-endian decimal digit characters of `n`: the list that
`Nat.toDigitsCore` at base 10 produces with sufficient fuel. -/
def repDigits (n : Nat) : List Char :=
  if n < 10 then [Nat.digitChar n]
  else repDigits (n / 10) ++ [Nat.digitChar (n % 10)]
decreasing_by
  exact Nat.div_lt_self (by omega) (by omega)

/-- Numeric value of a decimal digit character. -/
def charVal (c : Char) : Nat :=
  c.toNat - 48

/-- Decimal value of a digit-character string. -/
def digitsVal (l : List Char) : Nat :=
  l.foldl (fun acc c => acc * 10 + charVal c) 0

/-! ## Helper lemmas: decimal representations are injective -/

theorem toDigitsCore_eq_repDigits :
    ∀ (fuel n : Nat) (ds : List Char), n < fuel →
      Nat.toDigitsCore 10 fuel n ds = repDigits n ++ ds := by
  intro fuel
  induction fuel with
  | zero => intro n ds h; omega
  | succ f ih =>
    intro n ds h
    simp only [Nat.toDigitsCore]
    by_cases h10 : n < 10
    · have hz : n / 10 = 0 := Nat.div_eq_of_lt h10
      rw [if_pos hz, repDigits, if_pos h10, Nat.mod_eq_of_lt h10]
      simp
    · have hz : ¬n / 10 = 0 := by
        intro hc
        exact h10 (by omega)
      rw [if_neg hz, ih (n / 10) _ (by omega)]
      have hrepn : repDigits n = repDigits (n / 10) ++ [Nat.digitChar (n % 10)] := by
        conv_lhs => rw [repDigits]
        rw [if_neg h10]
      rw [hrepn]
      simp

theorem repr_eq_repDigits (n : Nat) : Nat.repr n = (repDigits n).asString := by
  rw [Nat.repr, Nat.toDigits, toDigitsCore_eq_repDigits (n + 1) n [] (by omega)]
  simp

theorem charVal_digitChar {d : Nat} (h : d < 10) :
    charVal (Nat.digitChar d) = d := by
  interval_cases d <;> decide

theorem digitsVal_append_singleton (l : List Char) (c : Char) :
    digitsVal (l ++ [c]) = digitsVal l * 10 + charVal c := by
  simp [digitsVal]

theorem digitsVal_repDigits (n : Nat) : digitsVal (repDigits n) = n := by
  induction n using Nat.strong_induction_on with
  | _ n ih =>
    rw [repDigits]
    by_cases h10 : n < 10
    · rw [if_pos h10]
      simpa [digitsVal] using charVal_digitChar h10
    · rw [if_neg h10, digitsVal_append_singleton,
        ih (n / 10) (Nat.div_lt_self (by omega) (by omega)),
        charVal_digitChar (Nat.mod_lt n (by omega))]
      omega

theorem repr_injective : Function.Injective Nat.repr := by
  intro a b h
  rw [repr_eq_repDigits, repr_eq_repDigits] at h
  have hd : repDigits a = repDigits b := congrArg String.data h
  have := congrArg digitsVal hd
  rwa [digitsVal_repDigits, digitsVal_repDigits] at this

/-! ## Helper lemmas: task field updates -/

@[simp] theorem id_setType (t : Task) (r : ResourceType) : (setType t r).id = t.id := by
  cases t; rfl

@[simp] theorem duration_setType (t : Task) (r : ResourceType) :
    (setType t r).duration = t.duration := by
  cases t; rfl

@[simp] theorem depends_setType (t : Task) (r : ResourceType) :
    (setType t r).depends = t.depends := by
  cases t; rfl

@[simp] theorem registers_setType (t : Task) (r : ResourceType) :
    (setType t r).registers = t.registers := by
  cases t; rfl

@[simp] theorem scheduled_setType (t : Task) (r : ResourceType) :
    (setType t r).scheduled = t.scheduled := by
  cases t; rfl

@[simp] theorem id_setDuration (t : Task) (d : Int) : (setDuration t d).id = t.id := by
  cases t; rfl

@[simp] theorem duration_setDuration (t : Task) (d : Int) :
    (setDuration t d).duration = d := by
  cases t; rfl

@[simp] theorem depends_setDuration (t : Task) (d : Int) :
    (setDuration t d).depends = t.depends := by
  cases t; rfl

@[simp] theorem registers_setDuration (t : Task) (d : Int) :
    (setDuration t d).registers = t.registers := by
  cases t; rfl

@[simp] theorem scheduled_setDuration (t : Task) (d : Int) :
    (setDuration t d).scheduled = t.scheduled := by
  cases t; rfl

@[simp] theorem id_setRegisters (t : Task) (reg : List Register) :
    (setRegisters t reg).id = t.id := by
  cases t; rfl

@[simp] theorem duration_setRegisters (t : Task) (reg : List Register) :
    (setRegisters t reg).duration = t.duration := by
  cases t; rfl

@[simp] theorem depends_setRegisters (t : Task) (reg : List Register) :
    (setRegisters t reg).depends = t.depends := by
  cases t; rfl

@[simp] theorem registers_setRegisters (t : Task) (reg : List Register) :
    (setRegisters t reg).registers = reg := by
  cases t; rfl

@[simp] theorem scheduled_setRegisters (t : Task) (reg : List Register) :
    (setRegisters t reg).scheduled = t.scheduled := by
  cases t; rfl

@[simp] theorem id_addDep (t d : Task) : (addDep t d).id = t.id := by
  cases t; rfl

@[simp] theorem duration_addDep (t d : Task) : (addDep t d).duration = t.duration := by
  cases t; rfl

@[simp] theorem depends_addDep (t d : Task) :
    (addDep t d).depends = t.depends.insert d := by
  cases t; rfl

@[simp] theorem registers_addDep (t d : Task) : (addDep t d).registers = t.registers := by
  cases t; rfl

@[simp] theorem scheduled_addDep (t d : Task) : (addDep t d).scheduled = t.scheduled := by
  cases t; rfl

/-- Transfer a property of a projection `f` along an equality of
`f`-images. -/
theorem mem_map_transfer {β : Type} {f : Task → β} {l' l : List Task}
    (hmap : l'.map f = l.map f) (P : β → Prop) (h : ∀ t ∈ l, P (f t)) :
    ∀ t' ∈ l', P (f t') := by
  intro t' ht'
  have hm : f t' ∈ l'.map f := List.mem_map_of_mem f ht'
  rw [hmap] at hm
  obtain ⟨t, ht, he⟩ := List.mem_map.mp hm
  rw [← he]
  exact h t ht

theorem set_getD_self : ∀ (l : List Task) (i : Nat), l.set i (l.getD i default) = l
  | [], _ => rfl
  | _ :: _, 0 => rfl
  | a :: l, i + 1 => by
    simpa [List.set, List.getD] using set_getD_self l i

theorem getD_mem {l : List Task} {j : Nat} (h : j < l.length) :
    l.getD j default ∈ l := by
  rw [List.getD_eq_getElem?_getD, List.getElem?_eq_getElem h]
  exact List.getElem_mem h

/-! ## Helper lemmas: the generator phases -/

theorem shuffleGo_perm :
    ∀ (fuel : Nat) (l : List Task) (g : Rng), l.length ≤ fuel →
      (shuffleGo fuel l g).1.Perm l := by
  intro fuel
  induction fuel with
  | zero =>
    intro l g _
    exact List.Perm.refl l
  | succ f ih =>
    intro l g h
    rw [shuffleGo]
    by_cases he : l.isEmpty
    · simp [he]
    · simp only [if_neg he]
      have hlen : 0 < l.length := by
        cases l with
        | nil => simp at he
        | cons a l => simp
      have hx : l.getD ((randbelow l.length g).1) default ∈ l :=
        getD_mem (Nat.mod_lt _ hlen)
      have herase : (l.erase (l.getD ((randbelow l.length g).1) default)).length ≤ f := by
        rw [List.length_erase_of_mem hx]
        omega
      exact ((ih _ _ herase).cons _).trans (List.perm_cons_erase hx).symm

theorem shuffle_perm (l : List Task) (g : Rng) : (shuffle l g).1.Perm l :=
  shuffleGo_perm l.length l g le_rfl

theorem assignTypes_map {β : Type} (f : Task → β)
    (hf : ∀ t r, f (setType t r) = f t) :
    ∀ (rs : List ResourceType) (ts : List Task),
      (assignTypes rs ts).map f = ts.map f := by
  intro rs
  induction rs with
  | nil =>
    intro ts
    cases ts <;> rfl
  | cons r rs ih =>
    intro ts
    cases ts with
    | nil => rfl
    | cons t ts => simp [assignTypes, hf, ih]

theorem assignDurations_map {β : Type} (f : Task → β)
    (hf : ∀ t d, f (setDuration t d) = f t) :
    ∀ (ts : List Task) (g : Rng), (assignDurations ts g).1.map f = ts.map f := by
  intro ts
  induction ts with
  | nil => intro g; rfl
  | cons t ts ih => intro g; simp [assignDurations, hf, ih]

theorem assignDurations_bounds :
    ∀ (ts : List Task) (g : Rng) (t : Task), t ∈ (assignDurations ts g).1 →
      1 ≤ t.duration ∧ t.duration ≤ 4 := by
  intro ts
  induction ts with
  | nil =>
    intro g t ht
    simp [assignDurations] at ht
  | cons u ts ih =>
    intro g t ht
    simp only [assignDurations, List.mem_cons] at ht
    rcases ht with h | h
    · subst h
      have hm : (randrange 1 5 g).1 % 4 < 4 := Nat.mod_lt _ (by omega)
      constructor <;> simp [randrange] <;> omega
    · exact ih _ t h

theorem assignRegisters_map {β : Type} (f : Task → β)
    (hf : ∀ t reg, f (setRegisters t reg) = f t) :
    ∀ (ts : List Task) (g : Rng), (assignRegisters ts g).1.map f = ts.map f := by
  intro ts
  induction ts with
  | nil => intro g; rfl
  | cons t ts ih => intro g; simp [assignRegisters, hf, ih]

theorem assignRegisters_bounds :
    ∀ (ts : List Task) (g : Rng) (t : Task), t ∈ (assignRegisters ts g).1 →
      1 ≤ t.registers.length ∧ t.registers.length ≤ 2 := by
  intro ts
  induction ts with
  | nil =>
    intro g t ht
    simp [assignRegisters] at ht
  | cons u ts ih =>
    intro g t ht
    simp only [assignRegisters, List.mem_cons] at ht
    rcases ht with h | h
    · subst h
      by_cases hc : (randChance 25 (chooseRegister g).2).1
      · simp only [if_pos hc, registers_setRegisters]
        simp only [List.insert]
        split <;> simp
      · simp [if_neg hc]
    · exact ih _ t h

theorem set_getElem_self {α : Type} :
    ∀ (l : List α) (i : Nat) (h : i < l.length), l.set i (l.get ⟨i, h⟩) = l
  | _ :: _, 0, _ => rfl
  | a :: l, i + 1, h => by
    simpa [List.set] using set_getElem_self l i (Nat.lt_of_succ_lt_succ h)

theorem map_set_addDep {β : Type} (f : Task → β) (hf : ∀ t d, f (addDep t d) = f t)
    (l : List Task) (i : Nat) (dep : Task) :
    (l.set i (addDep (l.getD i default) dep)).map f = l.map f := by
  by_cases h : i < l.length
  · have hget : l.getD i default = l.get ⟨i, h⟩ := by
      rw [List.getD_eq_getElem?_getD, List.getElem?_eq_getElem h]
      rfl
    rw [List.map_set, hf, hget]
    have hfget : f (l.get ⟨i, h⟩) = (l.map f).get ⟨i, by simpa using h⟩ := by
      simp
    rw [hfget, List.get_eq_getElem, ← List.get_eq_getElem (l.map f) ⟨i, by simpa using h⟩]
    exact set_getElem_self (l.map f) i (by simpa using h)
  · rw [List.set_eq_of_length_le (by omega)]

theorem addDepsGo_map {β : Type} (f : Task → β) (hf : ∀ t d, f (addDep t d) = f t) :
    ∀ (fuel i : Nat) (lists : List Task) (g : Rng),
      ((addDepsGo fuel i lists g).1).map f = lists.map f := by
  intro fuel
  induction fuel with
  | zero => intro i lists g; rfl
  | succ fl ih =>
    intro i lists g
    rw [addDepsGo]
    by_cases h1 : (randChance 33 g).1
    · simp only [if_pos h1]
      exact ih ..
    · simp only [if_neg h1]
      by_cases h2 : task_depth (chooseTask (lists.take i) (randChance 33 g).2).1 < 4
      · simp only [if_pos h2]
        by_cases h3 :
            (randChance 66 (chooseTask (lists.take i) (randChance 33 g).2).2).1
        · simp only [if_pos h3]
          rw [ih, map_set_addDep f hf]
        · simp only [if_neg h3]
          split
          · rw [ih, map_set_addDep f hf, map_set_addDep f hf]
          · rw [ih, map_set_addDep f hf]
      · simp only [if_neg h2]
        by_cases h3 :
            (randChance 66 (chooseTask (lists.take i) (randChance 33 g).2).2).1
        · simp only [if_pos h3]
          exact ih ..
        · simp only [if_neg h3]
          split
          · rw [ih, map_set_addDep f hf]
          · exact ih ..

theorem addDeps_map {β : Type} (f : Task → β) (hf : ∀ t d, f (addDep t d) = f t)
    (lists : List Task) (g : Rng) : ((addDeps lists g).1).map f = lists.map f :=
  addDepsGo_map f hf _ 1 lists g

theorem depsBounded_addDep {t d : Task} (ht : DepsBounded t) (hd : task_depth d ≤ 3) :
    DepsBounded (addDep t d) := by
  intro x hx
  rw [depends_addDep] at hx
  rcases List.mem_insert_iff.mp hx with h | h
  · rw [h]; exact hd
  · exact ht x h

theorem depsBounded_default : DepsBounded (default : Task) := by
  intro x hx
  exact absurd hx (List.not_mem_nil x)

theorem depsBounded_set_addDep {l : List Task} {i : Nat} {dep : Task}
    (hinv : ∀ t ∈ l, DepsBounded t) (hd : task_depth dep ≤ 3) :
    ∀ t ∈ l.set i (addDep (l.getD i default) dep), DepsBounded t := by
  intro t ht
  rcases List.mem_or_eq_of_mem_set ht with h | h
  · exact hinv t h
  · rw [h]
    apply depsBounded_addDep _ hd
    by_cases hi : i < l.length
    · exact hinv _ (getD_mem hi)
    · have : l.getD i default = default := by
        rw [List.getD_eq_getElem?_getD, List.getElem?_eq_none (by omega)]
        rfl
      rw [this]
      exact depsBounded_default

theorem addDepsGo_depsBounded :
    ∀ (fuel i : Nat) (lists : List Task) (g : Rng),
      (∀ t ∈ lists, DepsBounded t) →
      ∀ t ∈ (addDepsGo fuel i lists g).1, DepsBounded t := by
  intro fuel
  induction fuel with
  | zero => intro i lists g hinv; exact hinv
  | succ fl ih =>
    intro i lists g hinv
    rw [addDepsGo]
    by_cases h1 : (randChance 33 g).1
    · simp only [if_pos h1]
      exact ih _ _ _ hinv
    · simp only [if_neg h1]
      by_cases h2 : task_depth (chooseTask (lists.take i) (randChance 33 g).2).1 < 4
      · simp only [if_pos h2]
        have hinv1 := depsBounded_set_addDep (i := i) hinv (Nat.lt_succ_iff.mp h2)
        by_cases h3 :
            (randChance 66 (chooseTask (lists.take i) (randChance 33 g).2).2).1
        · simp only [if_pos h3]
          exact ih _ _ _ hinv1
        · simp only [if_neg h3]
          split
          · rename_i h4
            exact ih _ _ _ (depsBounded_set_addDep hinv1 (Nat.lt_succ_iff.mp h4))
          · exact ih _ _ _ hinv1
      · simp only [if_neg h2]
        by_cases h3 :
            (randChance 66 (chooseTask (lists.take i) (randChance 33 g).2).2).1
        · simp only [if_pos h3]
          exact ih _ _ _ hinv
        · simp only [if_neg h3]
          split
          · rename_i h4
            exact ih _ _ _ (depsBounded_set_addDep hinv (Nat.lt_succ_iff.mp h4))
          · exact ih _ _ _ hinv

theorem addDeps_depsBounded {lists : List Task} {g : Rng}
    (hinv : ∀ t ∈ lists, DepsBounded t) :
    ∀ t ∈ (addDeps lists g).1, DepsBounded t :=
  addDepsGo_depsBounded _ 1 lists g hinv

theorem task_depthList_le {k : Nat} :
    ∀ {l : List Task}, (∀ x ∈ l, task_depth x ≤ k) → task_depthList l ≤ k := by
  intro l
  induction l with
  | nil => intro _; exact Nat.zero_le k
  | cons d ds ih =>
    intro h
    rw [task_depthList]
    exact Nat.max_le.mpr ⟨h d (by simp), ih (fun x hx => h x (by simp [hx]))⟩

theorem task_depth_le_four {t : Task} (h : DepsBounded t) : task_depth t ≤ 4 := by
  cases t with
  | mk i ty du dep reg s =>
    cases dep with
    | nil =>
      rw [task_depth]
      omega
    | cons d ds =>
      rw [task_depth]
      have hb : task_depthList (d :: ds) ≤ 3 := task_depthList_le (fun x hx => h x hx)
      omega

theorem sizeOf_lt_of_mem_depends {t d : Task} (h : d ∈ t.depends) :
    sizeOf d < sizeOf t := by
  cases t with
  | mk i ty du dep reg s =>
    simp only [Task.depends] at h
    have h1 : sizeOf d < sizeOf dep := List.sizeOf_lt_of_mem h
    simp only [Task.mk.sizeOf_spec]
    omega

theorem DependsOn.sizeOf_lt {t u : Task} (h : DependsOn t u) : sizeOf u < sizeOf t := by
  induction h with
  | step h => exact sizeOf_lt_of_mem_depends h
  | tail h _ ih => exact Nat.lt_trans ih (sizeOf_lt_of_mem_depends h)

theorem not_dependsOn_self (t : Task) : ¬DependsOn t t := fun h =>
  absurd h.sizeOf_lt (Nat.lt_irrefl _)

theorem blankTasks_length (n : Nat) : (blankTasks n).length = n := by
  simp [blankTasks]

theorem blankTasks_fields :
    ∀ t ∈ blankTasks n, t.scheduled = -1 ∧ t.depends = [] := by
  intro t ht
  obtain ⟨i, _, rfl⟩ := List.mem_map.mp ht
  exact ⟨rfl, rfl⟩

theorem blankTasks_ids_nodup (n : Nat) : ((blankTasks n).map Task.id).Nodup := by
  rw [blankTasks, List.map_map]
  have : (Task.id ∘ fun i => Task.mk (Nat.repr i) .Red 1 [] [] (-1)) = Nat.repr := by
    funext i
    rfl
  rw [this]
  exact (List.nodup_range' 1 n).map repr_injective

/-- Combined specification of the generator pipeline after the first
shuffle: lengths, distinct ids, field ranges and bounded dependency
depth of the final output, given blank-task facts about `l1`. -/
theorem stages_final (rs : List ResourceType) (l1 : List Task) (g2 : Rng) (n : Nat)
    (hlen : l1.length = n) (hnodup : (l1.map Task.id).Nodup)
    (hs : ∀ t ∈ l1, t.scheduled = -1) (hdep : ∀ t ∈ l1, t.depends = []) :
    let p2 := shuffle (assignTypes rs l1) g2
    let p3 := assignDurations p2.1 p2.2
    let p4 := assignRegisters p3.1 p3.2
    let p5 := addDeps p4.1 p4.2
    let res := (shuffle p5.1 p5.2).1
    res.length = n ∧ (res.map Task.id).Nodup ∧
      ∀ t ∈ res, t.scheduled = -1 ∧ (1 ≤ t.duration ∧ t.duration ≤ 4) ∧
        (1 ≤ t.registers.length ∧ t.registers.length ≤ 2) ∧ task_depth t ≤ 4 := by
  intro p2 p3 p4 p5 res
  have hperm2 : p2.1.Perm (assignTypes rs l1) := shuffle_perm _ _
  have hpermres : res.Perm p5.1 := shuffle_perm _ _
  have emapT : (assignTypes rs l1).map Task.id = l1.map Task.id :=
    assignTypes_map Task.id (by simp) rs l1
  have emap3 : p3.1.map Task.id = p2.1.map Task.id :=
    assignDurations_map Task.id (by simp) _ _
  have emap4 : p4.1.map Task.id = p3.1.map Task.id :=
    assignRegisters_map Task.id (by simp) _ _
  have emap5 : p5.1.map Task.id = p4.1.map Task.id :=
    addDeps_map Task.id (by simp) _ _
  have hidperm : (res.map Task.id).Perm (l1.map Task.id) := by
    have h1 : (res.map Task.id).Perm (p5.1.map Task.id) := hpermres.map Task.id
    rw [emap5, emap4, emap3] at h1
    exact h1.trans (by rw [← emapT]; exact hperm2.map Task.id)
  refine ⟨?_, ?_, ?_⟩
  · have := hidperm.length_eq
    simpa [hlen] using this
  · exact (List.Perm.nodup_iff hidperm).mpr hnodup
  · have hp2 : ∀ t ∈ p2.1, t.scheduled = -1 ∧ t.depends = [] := by
      intro t ht
      have ht' : t ∈ assignTypes rs l1 := hperm2.mem_iff.mp ht
      exact mem_map_transfer (f := fun t => (t.scheduled, t.depends))
        (assignTypes_map _ (by simp)  rs l1)
        (fun p => p.1 = -1 ∧ p.2 = []) (fun u hu => ⟨hs u hu, hdep u hu⟩) t ht'
    have hp3 : ∀ t ∈ p3.1, t.scheduled = -1 ∧ t.depends = [] := by
      intro t ht
      exact mem_map_transfer (f := fun t => (t.scheduled, t.depends))
        (assignDurations_map _ (by simp) p2.1 p2.2)
        (fun p => p.1 = -1 ∧ p.2 = []) hp2 t ht
    have hp3dur : ∀ t ∈ p3.1, 1 ≤ t.duration ∧ t.duration ≤ 4 :=
      fun t ht => assignDurations_bounds p2.1 p2.2 t ht
    have hp4 : ∀ t ∈ p4.1,
        (t.scheduled = -1 ∧ t.depends = []) ∧ 1 ≤ t.duration ∧ t.duration ≤ 4 := by
      intro t ht
      exact mem_map_transfer (f := fun t => ((t.scheduled, t.depends), t.duration))
        (assignRegisters_map _ (by simp) p3.1 p3.2)
        (fun p => (p.1.1 = -1 ∧ p.1.2 = []) ∧ 1 ≤ p.2 ∧ p.2 ≤ 4)
        (fun u hu => ⟨hp3 u hu, hp3dur u hu⟩) t ht
    have hp4reg : ∀ t ∈ p4.1, 1 ≤ t.registers.length ∧ t.registers.length ≤ 2 :=
      fun t ht => assignRegisters_bounds p3.1 p3.2 t ht
    have hp5 : ∀ t ∈ p5.1,
        (t.scheduled = -1 ∧ 1 ≤ t.duration ∧ t.duration ≤ 4) ∧
          1 ≤ t.registers.length ∧ t.registers.length ≤ 2 := by
      intro t ht
      exact mem_map_transfer
        (f := fun t => ((t.scheduled, t.duration), t.registers.length))
        (addDeps_map _ (by simp) p4.1 p4.2)
        (fun p => (p.1.1 = -1 ∧ 1 ≤ p.1.2 ∧ p.1.2 ≤ 4) ∧ 1 ≤ p.2 ∧ p.2 ≤ 2)
        (fun u hu => ⟨⟨(hp4 u hu).1.1, (hp4 u hu).2⟩, hp4reg u hu⟩) t ht
    have hp5db : ∀ t ∈ p5.1, DepsBounded t := by
      apply addDeps_depsBounded
      intro u hu x hx
      rw [(hp4 u hu).1.2] at hx
      exact absurd hx (List.not_mem_nil x)
    intro t ht
    have ht' : t ∈ p5.1 := hpermres.mem_iff.mp ht
    exact ⟨(hp5 t ht').1.1, (hp5 t ht').1.2, (hp5 t ht').2,
      task_depth_le_four (hp5db t ht')⟩

/-- Facts about the list entering the second pipeline stage. -/
theorem firstShuffle_facts (n : Nat) (g : Rng) :
    (shuffle (blankTasks n) g).1.length = n ∧
      ((shuffle (blankTasks n) g).1.map Task.id).Nodup ∧
      (∀ t ∈ (shuffle (blankTasks n) g).1, t.scheduled = -1) ∧
      ∀ t ∈ (shuffle (blankTasks n) g).1, t.depends = [] := by
  have hperm := shuffle_perm (blankTasks n) g
  refine ⟨?_, ?_, ?_, ?_⟩
  · rw [hperm.length_eq, blankTasks_length]
  · exact (List.Perm.nodup_iff (hperm.map Task.id)).mpr (blankTasks_ids_nodup n)
  · exact fun t ht => (blankTasks_fields t (hperm.mem_iff.mp ht)).1
  · exact fun t ht => (blankTasks_fields t (hperm.mem_iff.mp ht)).2

/-- C4: for every `N ≥ 0` and every random stream, the dependency
relation over `generate_tasks`' output is acyclic and every task's
dependency-chain depth (`task_depth`, leaves counting 1) is at most 4. -/
theorem generate_tasks_acyclic_depth_le_four :
    ∀ (n : Nat) (g : Rng), ∀ t ∈ (generate_tasks n g).1,
      task_depth t ≤ 4 ∧ ¬DependsOn t t := by
  intro n g t ht
  refine ⟨?_, not_dependsOn_self t⟩
  simp only [generate_tasks] at ht
  obtain ⟨hf1, hf2, hf3, hf4⟩ := firstShuffle_facts n g
  obtain ⟨-, -, h3⟩ := stages_final _ ((shuffle (blankTasks n) g).1) _ n hf1 hf2 hf3 hf4
  exact (h3 t ht).2.2.2

/-- C4 witness: the theorem applied to the task generated from the
all-zero random stream at `N = 1`. -/
theorem generate_tasks_acyclic_depth_le_four_witness :
    task_depth (Task.mk "1" .Red 1 [] [.A] (-1)) ≤ 4 ∧
      ¬DependsOn (Task.mk "1" .Red 1 [] [.A] (-1)) (Task.mk "1" .Red 1 [] [.A] (-1)) :=
  generate_tasks_acyclic_depth_le_four 1 zeroRng (Task.mk "1" .Red 1 [] [.A] (-1))
    (by decide)

/-- C8: for every `N ≥ 0` and every random stream, `generate_tasks`
returns exactly `N` tasks with pairwise-distinct ids, each unscheduled
(`scheduled = -1`), with duration in `[1, 4]` and a non-empty register
set of at most two registers. -/
theorem generate_tasks_output_spec :
    ∀ (n : Nat) (g : Rng),
      (generate_tasks n g).1.length = n ∧
      ((generate_tasks n g).1.map Task.id).Nodup ∧
      ∀ t ∈ (generate_tasks n g).1,
        t.scheduled = -1 ∧ (1 ≤ t.duration ∧ t.duration ≤ 4) ∧
          1 ≤ t.registers.length ∧ t.registers.length ≤ 2 := by
  intro n g
  simp only [generate_tasks]
  obtain ⟨hf1, hf2, hf3, hf4⟩ := firstShuffle_facts n g
  obtain ⟨h1, h2, h3⟩ := stages_final _ ((shuffle (blankTasks n) g).1) _ n hf1 hf2 hf3 hf4
  exact ⟨h1, h2, fun t ht =>
    ⟨(h3 t ht).1, (h3 t ht).2.1, (h3 t ht).2.2.1⟩⟩

/-- C8 witness: the specification evaluated at `N = 2` on the all-zero
random stream. -/
theorem generate_tasks_output_spec_witness :
    (generate_tasks 2 zeroRng).1.length = 2 ∧
      ((generate_tasks 2 zeroRng).1.map Task.id).Nodup ∧
      ∀ t ∈ (generate_tasks 2 zeroRng).1,
        t.scheduled = -1 ∧ (1 ≤ t.duration ∧ t.duration ≤ 4) ∧
          1 ≤ t.registers.length ∧ t.registers.length ≤ 2 :=
  generate_tasks_output_spec 2 zeroRng

/-! ## Helper lemmas: the verifier -/

theorem clearChannel_of_le {time : Nat} {rv : Int × Task} {c : List Task}
    (h : rv.1 ≤ (time : Int)) :
    clearChannel time (some rv) c = (none, c.insert rv.2) := by
  rw [clearChannel, if_pos h]

theorem clearChannel_of_gt {time : Nat} {rv : Int × Task} {c : List Task}
    (h : (time : Int) < rv.1) :
    clearChannel time (some rv) c = (some rv, c) := by
  rw [clearChannel, if_neg (by omega)]

theorem mem_clearChannel {a : Task} {time : Nat} {v : Option (Int × Task)}
    {c : List Task} (h : a ∈ c) : a ∈ (clearChannel time v c).2 := by
  cases v with
  | none => exact h
  | some rv =>
    rw [clearChannel]
    split
    · exact List.mem_insert_of_mem h
    · exact h

/-- C1: whenever `accept_task` reaches the admission point (queue head
scheduled exactly now, own running slot free) and some running task on
some channel shares a register with the head, it rejects with a
register-conflict diagnostic naming the head, the conflicting task,
their shared registers, and the tick; concretely, Scenario C is
rejected with exactly that diagnostic at tick 1 with shared register A. -/
theorem register_conflict_rejection :
    (∀ (ch : ResourceType) (sol : ChanMap (List Task)) (time : Nat)
        (rt : ChanMap (Option (Int × Task))) (comp : List Task)
        (task : Task) (rest : List Task),
      sol.get ch = task :: rest →
      task.scheduled = (time : Int) →
      rt.get ch = none →
      (∃ rv ∈ runningValues rt, regInter task.registers rv.2.registers ≠ []) →
      ∃ conflict : Task,
        regInter task.registers conflict.registers ≠ [] ∧
        accept_task ch sol time rt comp =
          .error (.registerConflict task.id conflict.id
            (regInter task.registers conflict.registers) time)) ∧
    simulate_cpu scenC_sol scenC_tasks =
      .error (.badSchedule (.registerConflict "2" "1" [.A] 1)) := by
  constructor
  · intro ch sol time rt comp task rest hq hsched hfree hex
    have hsome : ((runningValues rt).find?
        (fun rv => !(regInter task.registers rv.2.registers).isEmpty)).isSome := by
      rw [List.find?_isSome]
      obtain ⟨rv, hrv, hne⟩ := hex
      exact ⟨rv, hrv, by simpa [List.isEmpty_iff] using hne⟩
    obtain ⟨rv, hrv⟩ := Option.isSome_iff_exists.mp hsome
    have hp : (regInter task.registers rv.2.registers) ≠ [] := by
      have := List.find?_some hrv
      simpa [List.isEmpty_iff] using this
    have hconf : findRegConflict task rt = some rv.2 := by
      rw [findRegConflict, hrv]
      rfl
    refine ⟨rv.2, hp, ?_⟩
    simp only [accept_task, hq]
    rw [if_neg (by omega), if_neg (not_not_intro hsched)]
    simp only [hfree, hconf]
  · decide

/-- C1 witness: the general part applied to Scenario C's verifier state
at tick 1 (task 1 running on RED, task 2 at the head of GREEN). -/
theorem register_conflict_rejection_witness :
    ∃ conflict : Task,
      regInter taskC2.registers conflict.registers ≠ [] ∧
      accept_task .Green ⟨[], [taskC2], []⟩ 1 ⟨some (3, taskC1), none, none⟩ [] =
        .error (.registerConflict taskC2.id conflict.id
          (regInter taskC2.registers conflict.registers) 1) :=
  register_conflict_rejection.1 .Green ⟨[], [taskC2], []⟩ 1
    ⟨some (3, taskC1), none, none⟩ [] taskC2 [] rfl (by decide) rfl (by decide)

/-- C2 counterexample: on Scenario B's input (task 2 on the same RED
channel scheduled at tick 1 while task 1 still runs) the verifier
rejects with a task-collision diagnostic, not the claimed
dependency-unmet diagnostic naming task 1 at tick 1. -/
theorem scenB_collision_counterexample :
    simulate_cpu scenB_sol scenB_tasks =
      .error (.badSchedule (.collision "2" 1 "1" 2)) ∧
    simulate_cpu scenB_sol scenB_tasks ≠
      .error (.badSchedule (.dependencyUnmet "1" 1)) := by
  decide

/-- C2 amended: Scenario B is rejected at tick 1 naming both tasks, but
with a TaskCollision diagnostic — the channel-occupancy check precedes
the dependency check, and task 1 still occupies RED until tick 2. -/
theorem scenB_collision :
    simulate_cpu scenB_sol scenB_tasks =
      .error (.badSchedule (.collision "2" 1 "1" 2)) := by
  decide

/-- C5: a running task whose completion tick `c` has been reached is
removed from its slot and added to the completed set by the
clear sweep (which the tick body runs before any admission), while a
task whose completion tick is still in the future stays in its slot;
concretely, Scenario A (dependent task starting exactly at
`scheduled + duration = 2`) is accepted. -/
theorem completion_boundary :
    (∀ (time : Nat) (running : ChanMap (Option (Int × Task)))
        (completed : List Task) (ch : ResourceType) (c : Int) (t : Task),
      running.get ch = some (c, t) → c ≤ (time : Int) →
        (clearCompleted time running completed).1.get ch = none ∧
        t ∈ (clearCompleted time running completed).2) ∧
    (∀ (time : Nat) (running : ChanMap (Option (Int × Task)))
        (completed : List Task) (ch : ResourceType) (c : Int) (t : Task),
      running.get ch = some (c, t) → (time : Int) < c →
        (clearCompleted time running completed).1.get ch = some (c, t)) ∧
    simulate_cpu scenA_sol scenA_tasks = .ok () := by
  refine ⟨?_, ?_, by decide⟩
  · intro time running completed ch c t hch hc
    obtain ⟨r, g, b⟩ := running
    cases ch with
    | Red =>
      simp only [ChanMap.get] at hch
      subst hch
      rw [clearCompleted]
      simp only [@clearChannel_of_le time (c, t) _ hc]
      exact ⟨rfl, mem_clearChannel (mem_clearChannel (List.mem_insert_self t completed))⟩
    | Green =>
      simp only [ChanMap.get] at hch
      subst hch
      rw [clearCompleted]
      simp only [@clearChannel_of_le time (c, t) _ hc]
      exact ⟨rfl, mem_clearChannel (List.mem_insert_self t _)⟩
    | Blue =>
      simp only [ChanMap.get] at hch
      subst hch
      rw [clearCompleted]
      simp only [@clearChannel_of_le time (c, t) _ hc]
      exact ⟨rfl, List.mem_insert_self t _⟩
  · intro time running completed ch c t hch hc
    obtain ⟨r, g, b⟩ := running
    cases ch with
    | Red =>
      simp only [ChanMap.get] at hch
      subst hch
      rw [clearCompleted]
      simp only [@clearChannel_of_gt time (c, t) _ hc]
      rfl
    | Green =>
      simp only [ChanMap.get] at hch
      subst hch
      rw [clearCompleted]
      simp only [@clearChannel_of_gt time (c, t) _ hc]
      rfl
    | Blue =>
      simp only [ChanMap.get] at hch
      subst hch
      rw [clearCompleted]
      simp only [@clearChannel_of_gt time (c, t) _ hc]
      rfl

/-- C5 witness: the clear sweep at tick 2 frees RED (occupied by task 1
with completion tick 2) and marks task 1 completed. -/
theorem completion_boundary_witness :
    (clearCompleted 2 ⟨some (2, taskA1), none, none⟩ []).1.get .Red = none ∧
      taskA1 ∈ (clearCompleted 2 ⟨some (2, taskA1), none, none⟩ []).2 :=
  completion_boundary.1 2 ⟨some (2, taskA1), none, none⟩ [] .Red 2 taskA1 rfl
    (by decide)

/-- C6: the verifier operates on a value copy of the queues it was
given (`copyQueues` reproduces the input), and calling it twice in a
row on the same queues and task set returns the same outcome. -/
theorem simulate_cpu_no_mutation :
    ∀ (sol : ChanMap (List Task)) (tl : List Task),
      copyQueues sol = sol ∧ (runTwice sol tl).1 = (runTwice sol tl).2 := by
  intro sol tl
  refine ⟨?_, rfl⟩
  obtain ⟨r, g, b⟩ := sol
  simp [copyQueues]

theorem accept_task_no_unscheduled (ch : ResourceType) (sol : ChanMap (List Task))
    (time : Nat) (rt : ChanMap (Option (Int × Task))) (comp : List Task)
    (ids : List String) :
    accept_task ch sol time rt comp ≠ .error (.unscheduledTasks ids) := by
  rw [accept_task]
  split
  · simp
  · split
    · simp
    · split
      · simp
      · split
        · simp
        · split
          · simp
          · split
            · simp
            · simp

theorem tickBody_no_unscheduled (time : Nat) (st : SimState) (ids : List String) :
    tickBody time st ≠ .error (.unscheduledTasks ids) := by
  rw [tickBody]
  split
  · rename_i heq
    intro hc
    injection hc with h
    subst h
    exact accept_task_no_unscheduled _ _ _ _ _ _ heq
  · split
    · rename_i heq
      intro hc
      injection hc with h
      subst h
      exact accept_task_no_unscheduled _ _ _ _ _ _ heq
    · split
      · rename_i heq
        intro hc
        injection hc with h
        subst h
        exact accept_task_no_unscheduled _ _ _ _ _ _ heq
      · simp

theorem simLoopGo_no_unscheduled :
    ∀ (fuel time : Nat) (st : SimState) (ids : List String),
      simLoopGo fuel time st ≠ .error (.badSchedule (.unscheduledTasks ids)) := by
  intro fuel
  induction fuel with
  | zero =>
    intro time st ids
    rw [simLoopGo]
    split <;> simp
  | succ f ih =>
    intro time st ids
    rw [simLoopGo]
    split
    · split
      · rename_i heq
        intro hc
        injection hc with h
        injection h with h2
        subst h2
        exact tickBody_no_unscheduled _ _ _ heq
      · exact ih _ _ _
    · split <;> simp

/-- C7: `simulate_cpu` raises the unscheduled-tasks rejection, naming
every task whose `scheduled` is still `-1` (in task-list order), exactly
when at least one such task exists — checked once, before any tick runs,
for any queue contents; when no task carries the sentinel, no
unscheduled-tasks rejection can ever be produced. -/
theorem unscheduled_check_up_front :
    (∀ (sol : ChanMap (List Task)) (tl : List Task),
      tl.filter (fun t => t.scheduled == -1) ≠ [] →
      simulate_cpu sol tl = .error (.badSchedule (.unscheduledTasks
        ((tl.filter (fun t => t.scheduled == -1)).map Task.id)))) ∧
    (∀ (sol : ChanMap (List Task)) (tl : List Task) (ids : List String),
      tl.filter (fun t => t.scheduled == -1) = [] →
      simulate_cpu sol tl ≠ .error (.badSchedule (.unscheduledTasks ids))) := by
  constructor
  · intro sol tl hne
    rw [simulate_cpu, if_pos]
    simp [List.isEmpty_iff, hne]
  · intro sol tl ids hnil
    rw [simulate_cpu, if_neg (by simp [List.isEmpty_iff, hnil])]
    exact simLoopGo_no_unscheduled _ _ _ _

/-- C7 witness: a single unscheduled task is rejected up front with its
id listed, on empty queues. -/
theorem unscheduled_check_up_front_witness :
    simulate_cpu ⟨[], [], []⟩ [taskUnsched] =
      .error (.badSchedule (.unscheduledTasks
        (([taskUnsched].filter (fun t => t.scheduled == -1)).map Task.id))) :=
  unscheduled_check_up_front.1 ⟨[], [], []⟩ [taskUnsched] (by decide)

/-- C10: the verifier never requires a task to appear in a queue: a task
with any non-sentinel start tick can be added to the task list without
changing the verdict, and concretely a schedule is accepted even though
the scheduled task `ghost` appears in no channel queue. -/
theorem missing_from_queues_unchecked :
    (∀ (sol : ChanMap (List Task)) (tl : List Task) (t : Task),
      t.scheduled ≠ -1 → simulate_cpu sol (t :: tl) = simulate_cpu sol tl) ∧
    simulate_cpu scenGhost_sol scenGhost_tasks = .ok () := by
  constructor
  · intro sol tl t ht
    rw [simulate_cpu, simulate_cpu]
    have hfilter : (t :: tl).filter (fun u => u.scheduled == -1) =
        tl.filter (fun u => u.scheduled == -1) := by
      rw [List.filter_cons]
      simp [ht]
    rw [hfilter]
  · decide

/-- C10 witness: adding the never-queued task `ghost` (scheduled at 5)
to the task list leaves the verdict unchanged. -/
theorem missing_from_queues_unchecked_witness :
    simulate_cpu scenGhost_sol (taskGhost :: [taskR1]) =
      simulate_cpu scenGhost_sol [taskR1] :=
  missing_from_queues_unchecked.1 scenGhost_sol [taskR1] taskGhost (by decide)

/-- The loop reports the infinite-loop failure exactly when all
`30 - time` remaining tick bodies run without rejection and some queue
is non-empty at the start of each of them. -/
theorem simLoopGo_engineFailure_iff :
    ∀ (fuel time : Nat) (st : SimState), 30 ≤ fuel + time →
      (simLoopGo fuel time st = .error .engineFailure ↔
        (∃ st', runSteps (30 - time) time st = .ok st') ∧
        ∀ k, k < 30 - time → ∀ stk, runSteps k time st = .ok stk →
          anyQueue stk.solution = true) := by
  intro fuel
  induction fuel with
  | zero =>
    intro time st hf
    have h0 : 30 - time = 0 := by omega
    rw [simLoopGo, if_pos (by omega), h0]
    simp only [runSteps]
    constructor
    · intro _
      exact ⟨⟨st, rfl⟩, fun k hk => by omega⟩
    · intro _
      trivial
  | succ f ih =>
    intro time st hf
    rw [simLoopGo]
    by_cases hg : anyQueue st.solution = true ∧ time < 30
    · rw [if_pos hg]
      obtain ⟨hq, ht⟩ := hg
      have h30 : 30 - time = (30 - (time + 1)) + 1 := by omega
      cases htb : tickBody time st with
      | error r =>
        dsimp only
        constructor
        · intro hc
          exact absurd hc (by simp)
        · rintro ⟨⟨st', hst'⟩, -⟩
          rw [h30] at hst'
          simp only [runSteps, htb] at hst'
          injection hst'
      | ok st1 =>
        dsimp only
        rw [ih (time + 1) st1 (by omega)]
        constructor
        · rintro ⟨⟨st', h1⟩, h2⟩
          refine ⟨⟨st', ?_⟩, ?_⟩
          · rw [h30]
            simp only [runSteps, htb]
            exact h1
          · intro k hk stk hstk
            cases k with
            | zero =>
              simp only [runSteps] at hstk
              injection hstk with h
              rw [← h]
              exact hq
            | succ k' =>
              simp only [runSteps, htb] at hstk
              exact h2 k' (by omega) stk hstk
        · rintro ⟨⟨st', h1⟩, h2⟩
          rw [h30] at h1
          simp only [runSteps, htb] at h1
          refine ⟨⟨st', h1⟩, ?_⟩
          intro k hk stk hstk
          refine h2 (k + 1) (by omega) stk ?_
          simp only [runSteps, htb]
          exact hstk
    · rw [if_neg hg]
      by_cases h30 : 30 ≤ time
      · rw [if_pos h30]
        have h0 : 30 - time = 0 := by omega
        rw [h0]
        simp only [runSteps]
        constructor
        · intro _
          exact ⟨⟨st, rfl⟩, fun k hk => by omega⟩
        · intro _
          trivial
      · rw [if_neg h30]
        have hq : ¬anyQueue st.solution = true := fun h => hg ⟨h, by omega⟩
        constructor
        · intro hc
          exact absurd hc (by simp)
        · rintro ⟨-, h2⟩
          exact absurd (h2 0 (by omega) st rfl) hq

/-- If the queues are all drained at the start of some tick before the
ceiling, the loop accepts. -/
theorem simLoopGo_ok_of_drained :
    ∀ (fuel time : Nat) (st : SimState), 30 ≤ fuel + time →
      (∃ k, time + k < 30 ∧ ∃ stk, runSteps k time st = .ok stk ∧
        anyQueue stk.solution = false) →
      simLoopGo fuel time st = .ok () := by
  intro fuel
  induction fuel with
  | zero =>
    intro time st hf hex
    obtain ⟨k, hk, -⟩ := hex
    omega
  | succ f ih =>
    intro time st hf hex
    obtain ⟨k, hk, stk, hrun, hempty⟩ := hex
    rw [simLoopGo]
    by_cases hg : anyQueue st.solution = true ∧ time < 30
    · rw [if_pos hg]
      cases k with
      | zero =>
        simp only [runSteps] at hrun
        injection hrun with h
        rw [h] at hg
        rw [hempty] at hg
        exact absurd hg.1 (by simp)
      | succ k' =>
        cases htb : tickBody time st with
        | error r =>
          simp only [runSteps, htb] at hrun
          injection hrun
        | ok st1 =>
          dsimp only
          simp only [runSteps, htb] at hrun
          exact ih (time + 1) st1 (by omega)
            ⟨k', by omega, stk, hrun, hempty⟩
    · rw [if_neg hg, if_neg (by omega)]

/-- C3 counterexample: a single task scheduled at tick 29 is admitted
during the 30th tick body, draining every queue (after 30 tick bodies
no queue is non-empty), yet `simulate_cpu` still raises the
infinite-loop engine failure. -/
theorem ceiling_counterexample :
    simulate_cpu scenCeil_sol [taskCeil] = .error .engineFailure ∧
      (runSteps 30 0 (initState (copyQueues scenCeil_sol))).map
        (fun st => anyQueue st.solution) = .ok false := by
  decide

/-- C3 amended: for any input passing the unscheduled check,
`simulate_cpu` raises the engine failure iff the first 30 tick bodies
all run without rejection and some queue is still non-empty at the
start of each of them (so the clock reaches 30 even if the tick-29 body
drains the queues); and whenever every queue is drained at the start of
some tick strictly before tick 30, it accepts. -/
theorem ceiling_characterization :
    ∀ (sol : ChanMap (List Task)) (tl : List Task),
      tl.filter (fun t => t.scheduled == -1) = [] →
      (simulate_cpu sol tl = .error .engineFailure ↔
        (∃ st', runSteps 30 0 (initState (copyQueues sol)) = .ok st') ∧
        ∀ k, k < 30 → ∀ stk, runSteps k 0 (initState (copyQueues sol)) = .ok stk →
          anyQueue stk.solution = true) ∧
      ((∃ k, k < 30 ∧ ∃ stk, runSteps k 0 (initState (copyQueues sol)) = .ok stk ∧
          anyQueue stk.solution = false) →
        simulate_cpu sol tl = .ok ()) := by
  intro sol tl hnil
  rw [simulate_cpu, if_neg (by simp [List.isEmpty_iff, hnil])]
  constructor
  · exact simLoopGo_engineFailure_iff 30 0 (initState (copyQueues sol)) (by omega)
  · intro hex
    apply simLoopGo_ok_of_drained 30 0 _ (by omega)
    obtain ⟨k, hk, stk, h1, h2⟩ := hex
    exact ⟨k, by omega, stk, h1, h2⟩

/-- C3 witness: the amended characterization accepts the same single
task when scheduled at tick 28 instead (queues drained at the start of
tick 29). -/
theorem ceiling_characterization_witness :
    simulate_cpu scenCeil28_sol [taskCeil28] = .ok () :=
  (ceiling_characterization scenCeil28_sol [taskCeil28] (by decide)).2
    ⟨29, by omega,
      ⟨⟨[], [], []⟩, ⟨some (29, taskCeil28), none, none⟩, []⟩, by decide, by decide⟩

/-! ## Helper lemmas: single-channel back-to-back schedules (C9) -/

theorem depsOk_mono :
    ∀ {rem l l' : List Task}, (∀ x ∈ l, x ∈ l') → DepsOk l rem → DepsOk l' rem := by
  intro rem
  induction rem with
  | nil => intro l l' _ _; trivial
  | cons t rest ih =>
    intro l l' hsub h
    obtain ⟨h1, h2⟩ := h
    refine ⟨fun d hd => hsub d (h1 d hd), ih ?_ h2⟩
    intro x hx
    rcases List.mem_cons.mp hx with h | h
    · exact h ▸ List.mem_cons_self t l'
    · exact List.mem_cons_of_mem t (hsub x h)

theorem durTotal_nonneg :
    ∀ {l : List Task}, (∀ t ∈ l, 1 ≤ t.duration) → 0 ≤ durTotal l := by
  intro l
  induction l with
  | nil => intro _; simp [durTotal]
  | cons t rest ih =>
    intro h
    have h1 := h t (List.mem_cons_self t rest)
    have h2 := ih (fun u hu => h u (List.mem_cons_of_mem t hu))
    simp only [durTotal, List.map_cons, List.sum_cons] at h2 ⊢
    omega

theorem backToBack_scheduled_ge :
    ∀ {l : List Task} {s : Int}, BackToBack s l → (∀ t ∈ l, 1 ≤ t.duration) →
      ∀ t ∈ l, s ≤ t.scheduled := by
  intro l
  induction l with
  | nil => intro s _ _ t ht; exact absurd ht (List.not_mem_nil t)
  | cons u rest ih =>
    intro s hbb hdur t ht
    obtain ⟨hsched, hrest⟩ := hbb
    rcases List.mem_cons.mp ht with h | h
    · rw [h, hsched]
    · have hd := hdur u (List.mem_cons_self u rest)
      have := ih hrest (fun v hv => hdur v (List.mem_cons_of_mem u hv)) t h
      omega

theorem clearCompleted_none (u : Nat) (comp : List Task) :
    clearCompleted u ⟨none, none, none⟩ comp = (⟨none, none, none⟩, comp) :=
  rfl

theorem clearCompleted_wait {u : Nat} {rv : Int × Task} (comp : List Task)
    (h : (u : Int) < rv.1) :
    clearCompleted u ⟨some rv, none, none⟩ comp = (⟨some rv, none, none⟩, comp) := by
  have c1 : ¬(rv.1 ≤ (u : Int)) := by omega
  simp [clearCompleted, clearChannel, c1]

theorem clearCompleted_fire {u : Nat} {rv : Int × Task} (comp : List Task)
    (h : rv.1 ≤ (u : Int)) :
    clearCompleted u ⟨some rv, none, none⟩ comp =
      (⟨none, none, none⟩, comp.insert rv.2) := by
  simp [clearCompleted, clearChannel, h]

theorem tickBody_wait {u : Nat} {rv : Int × Task} {t : Task} {rest comp : List Task}
    (hlt : (u : Int) < rv.1) (hsched : t.scheduled = rv.1) :
    tickBody u ⟨⟨t :: rest, [], []⟩, ⟨some rv, none, none⟩, comp⟩ =
      .ok ⟨⟨t :: rest, [], []⟩, ⟨some rv, none, none⟩, comp⟩ := by
  have c1 : ¬(rv.1 ≤ (u : Int)) := by omega
  have c2 : ¬(t.scheduled < (u : Int)) := by omega
  have c3 : ¬(t.scheduled = (u : Int)) := by omega
  simp [tickBody, clearCompleted, clearChannel, accept_task, ChanMap.get, c1, c2, c3]

theorem accept_task_nil {ch : ResourceType} {sol : ChanMap (List Task)} {u : Nat}
    {rt : ChanMap (Option (Int × Task))} {comp : List Task}
    (h : sol.get ch = []) : accept_task ch sol u rt comp = .ok (sol, rt) := by
  simp only [accept_task, h]

theorem accept_task_admits {ch : ResourceType} {sol : ChanMap (List Task)} {u : Nat}
    {rt : ChanMap (Option (Int × Task))} {comp : List Task} {t : Task}
    {rest : List Task} (hq : sol.get ch = t :: rest)
    (hsched : t.scheduled = (u : Int)) (hfree : rt.get ch = none)
    (hreg : findRegConflict t rt = none) (hdeps : ∀ d ∈ t.depends, d ∈ comp) :
    accept_task ch sol u rt comp =
      .ok (sol.set ch rest, rt.set ch (some ((u : Int) + t.duration, t))) := by
  simp only [accept_task, hq]
  rw [if_neg (by omega), if_neg (not_not_intro hsched)]
  simp only [hfree, hreg]
  have hfind : t.depends.find? (fun d => !comp.contains d) = none := by
    rw [List.find?_eq_none]
    intro x hx
    simp [hdeps x hx]
  simp only [hfind]

theorem tickBody_admit_fire {u : Nat} {rv : Int × Task} {t : Task}
    {rest comp : List Task} (heq : rv.1 = (u : Int)) (hsched : t.scheduled = (u : Int))
    (hdeps : ∀ d ∈ t.depends, d ∈ rv.2 :: comp) :
    tickBody u ⟨⟨t :: rest, [], []⟩, ⟨some rv, none, none⟩, comp⟩ =
      .ok ⟨⟨rest, [], []⟩, ⟨some ((u : Int) + t.duration, t), none, none⟩,
        comp.insert rv.2⟩ := by
  have c1 : rv.1 ≤ (u : Int) := le_of_eq heq
  have hdeps' : ∀ d ∈ t.depends, d ∈ comp.insert rv.2 := by
    intro d hd
    rcases List.mem_cons.mp (hdeps d hd) with h | h
    · exact h ▸ List.mem_insert_self rv.2 comp
    · exact List.mem_insert_of_mem h
  rw [tickBody]
  dsimp only
  rw [clearCompleted_fire comp c1]
  dsimp only
  rw [accept_task_admits
    (show (ChanMap.mk (t :: rest) [] []).get .Red = t :: rest from rfl)
    hsched
    (show (ChanMap.mk (α := Option (Int × Task)) none none none).get .Red = none from
      rfl)
    rfl hdeps']
  dsimp only [ChanMap.set]
  rw [accept_task_nil
    (show (ChanMap.mk (α := List Task) rest [] []).get .Green = [] from rfl)]
  dsimp only
  rw [accept_task_nil
    (show (ChanMap.mk (α := List Task) rest [] []).get .Blue = [] from rfl)]

theorem tickBody_admit_free {u : Nat} {t : Task} {rest comp : List Task}
    (hsched : t.scheduled = (u : Int)) (hdeps : ∀ d ∈ t.depends, d ∈ comp) :
    tickBody u ⟨⟨t :: rest, [], []⟩, ⟨none, none, none⟩, comp⟩ =
      .ok ⟨⟨rest, [], []⟩, ⟨some ((u : Int) + t.duration, t), none, none⟩, comp⟩ := by
  rw [tickBody]
  dsimp only
  rw [clearCompleted_none]
  dsimp only
  rw [accept_task_admits
    (show (ChanMap.mk (t :: rest) [] []).get .Red = t :: rest from rfl)
    hsched
    (show (ChanMap.mk (α := Option (Int × Task)) none none none).get .Red = none from
      rfl)
    rfl hdeps]
  dsimp only [ChanMap.set]
  rw [accept_task_nil
    (show (ChanMap.mk (α := List Task) rest [] []).get .Green = [] from rfl)]
  dsimp only
  rw [accept_task_nil
    (show (ChanMap.mk (α := List Task) rest [] []).get .Blue = [] from rfl)]

/-- Master lemma: a back-to-back topologically ordered single-channel
queue is fully admitted and the loop accepts, for any tail state of the
sweep. -/
theorem simLoopGo_backToBack :
    ∀ (fuel u : Nat) (rem comp : List Task) (run : Option (Int × Task)),
      30 ≤ fuel + u →
      u ≤ 29 →
      (∀ t ∈ rem, 1 ≤ t.duration) →
      (match run with
       | some rv => BackToBack rv.1 rem ∧ (u : Int) ≤ rv.1
       | none => BackToBack (u : Int) rem) →
      (match run with
       | some rv => DepsOk (rv.2 :: comp) rem
       | none => DepsOk comp rem) →
      (match run with
       | some rv => rv.1 + durTotal rem ≤ 29
       | none => (u : Int) + durTotal rem ≤ 29) →
      simLoopGo fuel u ⟨⟨rem, [], []⟩, ⟨run, none, none⟩, comp⟩ = .ok () := by
  intro fuel
  induction fuel with
  | zero =>
    intro u rem comp run hf hu _ _ _ _
    rw [simLoopGo, if_neg (by omega)]
  | succ f ih =>
    intro u rem comp run hf hu hdur hbb hdeps hbudget
    cases rem with
    | nil =>
      rw [simLoopGo, if_neg (by simp [anyQueue]), if_neg (by omega)]
    | cons t rest =>
      have hdur_rest : ∀ x ∈ rest, 1 ≤ x.duration :=
        fun x hx => hdur x (List.mem_cons_of_mem t hx)
      have hdt : 1 ≤ t.duration := hdur t (List.mem_cons_self t rest)
      have hdtr : 0 ≤ durTotal rest := durTotal_nonneg hdur_rest
      have hsum : durTotal (t :: rest) = t.duration + durTotal rest := by
        simp [durTotal]
      rw [simLoopGo, if_pos ⟨by simp [anyQueue], by omega⟩]
      cases run with
      | none =>
        obtain ⟨hsched, hrest⟩ := hbb
        obtain ⟨hd1, hd2⟩ := hdeps
        rw [hsum] at hbudget
        rw [tickBody_admit_free hsched hd1]
        exact ih (u + 1) rest comp (some ((u : Int) + t.duration, t))
          (by omega) (by omega) hdur_rest
          ⟨hrest, by omega⟩ hd2 (by omega)
      | some rv =>
        obtain ⟨⟨hsched, hrest⟩, hle⟩ := hbb
        obtain ⟨hd1, hd2⟩ := hdeps
        rw [hsum] at hbudget
        by_cases heq : rv.1 = (u : Int)
        · rw [tickBody_admit_fire heq (heq ▸ hsched) hd1]
          refine ih (u + 1) rest (comp.insert rv.2) (some ((u : Int) + t.duration, t))
            (by omega) (by omega) hdur_rest
            ⟨by rw [← heq]; exact hrest, by omega⟩ ?_ (by omega)
          refine depsOk_mono ?_ hd2
          intro x hx
          rcases List.mem_cons.mp hx with h | h
          · exact h ▸ List.mem_cons_self t _
          · rcases List.mem_cons.mp h with h' | h'
            · exact List.mem_cons_of_mem t (h' ▸ List.mem_insert_self rv.2 comp)
            · exact List.mem_cons_of_mem t (List.mem_insert_of_mem h')
        · have hlt : (u : Int) < rv.1 := by omega
          rw [tickBody_wait hlt hsched]
          exact ih (u + 1) (t :: rest) comp (some rv)
            (by omega) (by omega) hdur ⟨⟨hsched, hrest⟩, by omega⟩ ⟨hd1, hd2⟩
            (by rw [hsum]; omega)

/-- C9 counterexample: a topological-order, per-channel cumulative-sum
placement that `simulate_cpu` rejects.  Both tasks are first on their
channels (start tick 0, the empty cumulative sum) and have no
dependencies, yet admission of task 2 at tick 0 raises a register
conflict with task 1, so the round-trip claim fails as stated. -/
theorem roundtrip_counterexample :
    simulate_cpu scenR_sol scenR_tasks =
      .error (.badSchedule (.registerConflict "2" "1" [.A] 0)) ∧
    simulate_cpu scenR_sol scenR_tasks ≠ .ok () := by
  decide

/-- C9 amended: the round-trip holds on a single channel: every task
list queued entirely on one channel in a topological order (each task's
dependencies appear earlier in the same queue), with each start tick the
cumulative sum of the prior durations, positive durations, and total
duration at most 29 (so the final admission precedes the tick ceiling),
is accepted by `simulate_cpu`.  (Multi-channel cumulative-sum placements
may be rejected for register conflicts or cross-channel dependencies,
and larger totals hit the NonTermination ceiling.) -/
theorem single_channel_roundtrip :
    ∀ (ts : List Task),
      (∀ t ∈ ts, 1 ≤ t.duration) →
      BackToBack 0 ts →
      DepsOk [] ts →
      durTotal ts ≤ 29 →
      simulate_cpu ⟨ts, [], []⟩ ts = .ok () := by
  intro ts hdur hbb hdeps hbudget
  have hsched : ∀ t ∈ ts, (0 : Int) ≤ t.scheduled :=
    backToBack_scheduled_ge hbb hdur
  have hfilter : ts.filter (fun t => t.scheduled == -1) = [] := by
    rw [List.filter_eq_nil_iff]
    intro t ht
    have := hsched t ht
    simp only [beq_iff_eq]
    omega
  rw [simulate_cpu, if_neg (by simp [List.isEmpty_iff, hfilter])]
  have hcopy : copyQueues ⟨ts, [], []⟩ = ⟨ts, [], []⟩ := by
    simp [copyQueues]
  rw [hcopy, initState]
  have h0 : ((0 : Nat) : Int) = 0 := rfl
  exact simLoopGo_backToBack 30 0 ts [] none (by omega) (by omega) hdur
    (by rw [h0]; exact hbb) hdeps (by rw [h0]; omega)

/-- C9 witness: the amended round-trip applied to a concrete two-task
single-channel queue (durations 2 and 1, the second task depending on
the first, start ticks 0 and 2). -/
theorem single_channel_roundtrip_witness :
    simulate_cpu
      ⟨[Task.mk "1" .Red 2 [] [.A] 0,
        Task.mk "2" .Red 1 [Task.mk "1" .Red 2 [] [.A] 0] [.B] 2], [], []⟩
      [Task.mk "1" .Red 2 [] [.A] 0,
        Task.mk "2" .Red 1 [Task.mk "1" .Red 2 [] [.A] 0] [.B] 2] = .ok () :=
  single_channel_roundtrip
    [Task.mk "1" .Red 2 [] [.A] 0,
      Task.mk "2" .Red 1 [Task.mk "1" .Red 2 [] [.A] 0] [.B] 2]
    (by decide) ⟨by decide, by decide, trivial⟩ ⟨by decide, by decide, trivial⟩
    (by decide)

end SchedulerGame
